import Mathlib

/-!
Verification model of the `localfile` Terraform provider's core
(`internal/client.go` and the resource / data-source handlers that call it).

The path manipulation functions model Go's `path/filepath` package on
Unix (`Clean`, `Join`, `Abs`, `Dir`, `Base`), working on `List Char`
so that every function is structurally recursive and kernel-evaluable.
The filesystem is modelled as a flat association list from literal path
strings to entries (file / directory / archive / unreadable); all claims
exercise it at canonical absolute paths, so keying by the literal string
is faithful there.
-/

namespace LocalfileProvider

/-- Split a character list into components separated by `'/'`,
mirroring `strings.Split(path, "/")`: `"a/b" ↦ ["a","b"]`,
`"/a" ↦ ["","a"]`, `"" ↦ [""]`. `acc` holds the current component
reversed. -/
def splitComps : List Char → List Char → List (List Char)
  | [], acc => [acc.reverse]
  | c :: rest, acc =>
    if c = '/' then acc.reverse :: splitComps rest []
    else splitComps rest (c :: acc)

/-- The element-processing loop of Go `filepath.Clean` (Unix): drop
empty and `"."` components; on `".."` pop the previous real component,
keep a leading `".."` only when the path is not rooted, and drop
`".."` at the root of a rooted path.  `out` is the processed output
stack (most recent component first). -/
def cleanStack (rooted : Bool) : List (List Char) → List (List Char) → List (List Char)
  | out, [] => out
  | out, c :: cs =>
    if c = [] ∨ c = ['.'] then cleanStack rooted out cs
    else if c = ['.', '.'] then
      match out with
      | [] => if rooted then cleanStack rooted [] cs
              else cleanStack rooted [['.', '.']] cs
      | x :: rest =>
        if x = ['.', '.'] then cleanStack rooted (c :: x :: rest) cs
        else cleanStack rooted rest cs
    else cleanStack rooted (c :: out) cs

/-- Join components with `'/'` separators. -/
def joinComps : List (List Char) → List Char
  | [] => []
  | [c] => c
  | c :: cs => c ++ '/' :: joinComps cs

/-- Go `filepath.Clean` on Unix, on character lists.  Returns `"."`
for the empty path; collapses repeated separators, eliminates `"."`
and resolvable `".."` components, drops `".."` at the root. -/
def cleanChars (s : List Char) : List Char :=
  match s with
  | [] => ['.']
  | c :: _ =>
    let rooted := c = '/'
    let out := (cleanStack rooted [] (splitComps s [])).reverse
    let body := joinComps out
    if rooted then '/' :: body
    else if body = [] then ['.'] else body

/-- Go `filepath.Clean` on `String`. -/
def goClean (s : String) : String := ⟨cleanChars s.data⟩

/-- Go `filepath.Join`: drop leading empty elements, join the rest
with `'/'` and `Clean` the result; all-empty input yields `""`. -/
def goJoin (elems : List String) : String :=
  match elems.dropWhile (fun e => e = "") with
  | [] => ""
  | es => ⟨cleanChars (joinComps (es.map String.data))⟩

/-- Go `filepath.IsAbs` on Unix: the path starts with `'/'`. -/
def goIsAbs (s : String) : Bool :=
  match s.data with
  | '/' :: _ => true
  | _ => false

/-- Go `filepath.Abs`, with the process working directory `cwd`
passed explicitly (Go reads it via `os.Getwd`): an absolute path is
`Clean`ed, a relative one is joined onto `cwd`.  `filepath.Abs` is
purely lexical on Unix — it does not resolve symbolic links. -/
def goAbs (cwd s : String) : String :=
  if goIsAbs s then goClean s else goJoin [cwd, s]

/-- Go `filepath.Dir`: everything up to and including the final
separator, `Clean`ed (`"." ` when there is no separator). -/
def goDir (p : String) : String :=
  goClean ⟨(p.data.reverse.dropWhile (fun c => c ≠ '/')).reverse⟩

/-- Go `filepath.Base`: the final non-empty path component, `"."`
for the empty path and `"/"` for all-separator paths. -/
def goBase (p : String) : String :=
  match p.data with
  | [] => "."
  | _ =>
    let stripped := p.data.reverse.dropWhile (fun c => c = '/')
    match stripped with
    | [] => "/"
    | s => ⟨(s.takeWhile (fun c => c ≠ '/')).reverse⟩

instance exceptDecEq {ε α : Type} [DecidableEq ε] [DecidableEq α] :
    DecidableEq (Except ε α) := fun a b =>
  match a, b with
  | .error e, .error f =>
    if h : e = f then .isTrue (by rw [h]) else .isFalse (by simp [h])
  | .ok x, .ok y =>
    if h : x = y then .isTrue (by rw [h]) else .isFalse (by simp [h])
  | .error _, .ok _ => .isFalse (by simp)
  | .ok _, .error _ => .isFalse (by simp)

/-- The `internal.FileClient` struct: file system operations scoped (per its
documentation) to a base directory. -/
structure FileClient where
  BaseDir : String
deriving DecidableEq, Repr

/-- Model of `FileClient.fullPath` (client.go:24-44): join base directory,
location and name, clean, make both the base directory and the result
absolute, then succeed iff the absolute result has the absolute base
directory as a plain string prefix (`len(fullAbs) >= len(baseAbs) &&
fullAbs[:len(baseAbs)] == baseAbs`).  `cwd` stands for the process
working directory used by `filepath.Abs`.  Go slices bytes; on UTF-8
strings a whole-string byte prefix coincides with a character prefix,
so the check is taken over characters. -/
def fullPath (cwd : String) (c : FileClient) (location name : String) :
    Except String String :=
  let p := goJoin [c.BaseDir, location, name]
  let full := goClean p
  let baseAbs := goAbs cwd c.BaseDir
  let fullAbs := goAbs cwd full
  if fullAbs.data.length < baseAbs.data.length ∨
      fullAbs.data.take baseAbs.data.length ≠ baseAbs.data then
    .error "path escapes base directory"
  else
    .ok fullAbs

/-- Error kinds surfaced by the modelled OS calls.  `notFound` plays
the role of `fs.ErrNotExist`. -/
inductive IOError
  | notFound
  | permissionDenied
  | notADirectory
  | isADirectory
deriving DecidableEq, Repr

/-- A filesystem entry: a regular file with content and permission
mode, a directory with mode, a zip archive written by the client
(kept abstract as its list of `(entryName, entryBytes)` pairs; the
per-entry mode `0644` and the deflate method are fixed by
`CreateZipFile` and not modelled further), or an entry the process
lacks permission to access. -/
inductive Entry
  | file (content : String) (mode : Nat)
  | dir (mode : Nat)
  | archive (entries : List (String × String)) (mode : Nat)
  | unreadable
deriving DecidableEq, Repr

/-- Flat filesystem: association list from literal path strings to
entries; the first binding of a path wins. -/
def FS : Type := List (String × Entry)

instance : DecidableEq FS := fun a b => List.hasDecEq a b

def FS.lookup : FS → String → Option Entry
  | [], _ => none
  | (q, e) :: rest, p => if p = q then some e else FS.lookup rest p

def FS.eraseP : FS → String → FS
  | [], _ => []
  | (q, e) :: rest, p =>
    if p = q then FS.eraseP rest p else (q, e) :: FS.eraseP rest p

def FS.insert (fs : FS) (p : String) (e : Entry) : FS :=
  (p, e) :: FS.eraseP fs p

/-- Model of `os.ReadFile` as wrapped by `FileClient.ReadFile` (client.go:58-64):
returns the file's content as a string; absence is `notFound`,
permission problems surface as-is.  Reading a directory fails; the
raw bytes of an archive file are not modelled. -/
def ReadFile (fs : FS) (p : String) : Except IOError String :=
  match fs.lookup p with
  | none => .error .notFound
  | some (.file c _) => .ok c
  | some (.dir _) => .error .isADirectory
  | some (.archive _ _) => .error .isADirectory
  | some .unreadable => .error .permissionDenied

/-- Cumulative prefix paths of a list of components: the chain of
directories `os.MkdirAll` creates.  `cur` carries the already-built
prefix (ending in `'/'` when nonempty or rooted). -/
def accPrefixes (cur : List Char) : List (List Char) → List (List Char)
  | [] => []
  | c :: cs =>
    let nxt := cur ++ c
    nxt :: accPrefixes (nxt ++ ['/']) cs

/-- The ancestor directory chain `os.MkdirAll d` walks, outermost
first.  `"/"` and `"."` exist already and yield the empty chain. -/
def dirChain (d : String) : List String :=
  if d = "/" ∨ d = "." then []
  else
    let rooted := goIsAbs d
    let comps := (splitComps d.data []).filter (fun c => ¬(c = [] ∨ c = ['.']))
    (accPrefixes (if rooted then ['/'] else []) comps).map (fun l => ⟨l⟩)

/-- One step per ancestor of `os.MkdirAll`: an existing directory is
kept, a missing one is created with `mode`, anything else in the way
is an error. -/
def mkdirChain (mode : Nat) : FS → List String → Except IOError FS
  | fs, [] => .ok fs
  | fs, a :: as =>
    match fs.lookup a with
    | some (.dir _) => mkdirChain mode fs as
    | none => mkdirChain mode (fs.insert a (.dir mode)) as
    | some .unreadable => .error .permissionDenied
    | some _ => .error .notADirectory

/-- Model of `os.MkdirAll d mode`. -/
def MkdirAll (fs : FS) (d : String) (mode : Nat) : Except IOError FS :=
  mkdirChain mode fs (dirChain d)

/-- Model of `FileClient.WriteFile` (client.go:49-55): `os.MkdirAll(Dir(path),
0o755)` then `os.WriteFile(path, data, 0o644)`.  Per `os.WriteFile`'s
contract a new file is created with mode `0o644`; an existing file is
truncated and overwritten without changing its mode. -/
def WriteFile (fs : FS) (p data : String) : Except IOError FS :=
  match MkdirAll fs (goDir p) 0o755 with
  | .error e => .error e
  | .ok fs1 =>
    match fs1.lookup p with
    | some (.dir _) => .error .isADirectory
    | some .unreadable => .error .permissionDenied
    | some (.file _ m) => .ok (fs1.insert p (.file data m))
    | some (.archive _ m) => .ok (fs1.insert p (.file data m))
    | none => .ok (fs1.insert p (.file data 0o644))

/-- Model of `FileClient.Delete` (client.go:68-75): `os.Remove(path)`, with a
`fs.ErrNotExist` result swallowed.  The flat filesystem model does
not track directory emptiness, so `os.Remove`'s refusal to delete a
non-empty directory is not modelled; no claim exercises it. -/
def Delete (fs : FS) (p : String) : Except IOError FS :=
  match fs.lookup p with
  | none => .ok fs
  | some .unreadable => .error .permissionDenied
  | some _ => .ok (fs.eraseP p)

/-- Model of `FileClient.CreateZipFile` (client.go:81-112): create parent
directories of `zipPath`, `os.Create` the zip file (truncating any
existing one), open `srcPath` and store its bytes as the single
archive entry named `nameInZip`.  `os.Create` happens before the
source is opened, so the source is read from the state in which the
zip file has already been truncated to an empty file. -/
def CreateZipFile (fs : FS) (zipPath srcPath nameInZip : String) :
    Except IOError FS :=
  match MkdirAll fs (goDir zipPath) 0o755 with
  | .error e => .error e
  | .ok fs1 =>
    match fs1.lookup zipPath with
    | some (.dir _) => .error .isADirectory
    | some .unreadable => .error .permissionDenied
    | _ =>
      let fs2 := fs1.insert zipPath (.file "" 0o666)
      match fs2.lookup srcPath with
      | none => .error .notFound
      | some .unreadable => .error .permissionDenied
      | some (.dir _) => .error .isADirectory
      | some (.archive _ _) => .error .isADirectory
      | some (.file c _) =>
        .ok (fs2.insert zipPath (.archive [(nameInZip, c)] 0o666))

/-- The `fullPath` operation as a state transformer over the filesystem.  The Go
implementation (client.go:24-44) performs no filesystem syscalls —
`filepath.Join` and `filepath.Clean` are lexical and `filepath.Abs`
only reads the working directory — so its action on filesystem state
is the identity, and its result does not depend on the state. -/
def resolvePathFS (cwd : String) (c : FileClient) (location name : String)
    (fs : FS) : Except String String × FS :=
  (fullPath cwd c location name, fs)

/-- State attributes of the `localfile_txt` resource
(`txtResourceModel`): the id is the absolute file path. -/
structure TxtState where
  id : String
  name : String
  location : String
  data : Option String
deriving DecidableEq, Repr

/-- Outcome of a Terraform refresh (`Read`) of a managed resource. -/
inductive RefreshOutcome
  | noop
  | removed
  | updated (st : TxtState)
deriving DecidableEq, Repr

/-- Model of `txtResource.Read` (resource_txt.go:156-180): read the file at
the id stored in state; an empty id is a no-op.  The code removes the
resource from state whenever `ReadFile` returns an error — it does
not inspect which error — and otherwise refreshes `data` with the
file's content. -/
def txtResourceRead (fs : FS) (st : TxtState) : RefreshOutcome :=
  if st.id = "" then .noop
  else
    match ReadFile fs st.id with
    | .error _ => .removed
    | .ok content => .updated { st with data := some content }

/-- Errors a data-source `Read` reports as diagnostics. -/
inductive DSError
  | missingName
  | invalidPath
  | ioError (e : IOError)
deriving DecidableEq, Repr

/-- Model of `txtDataSource.Read` (data_source_txt.go:90-142): an empty name
is a configuration error; a `fullPath` failure is an invalid-path
error; any `ReadFile` error — not-found included — is a hard error
surfaced to the user. -/
def txtDataSourceRead (cwd : String) (c : FileClient) (fs : FS)
    (name : String) (location : Option String) : Except DSError TxtState :=
  if name = "" then .error .missingName
  else
    let loc := location.getD ""
    match fullPath cwd c loc name with
    | .error _ => .error .invalidPath
    | .ok fp =>
      match ReadFile fs fp with
      | .error e => .error (.ioError e)
      | .ok content => .ok ⟨fp, name, loc, some content⟩

/-- State attributes of the `localfile_onefile_zip` resource
(`zipResourceModel`). -/
structure ZipState where
  id : String
  srcFileID : String
  name : String
  location : String
deriving DecidableEq, Repr

/-- Errors `zipResource.Create` reports as diagnostics. -/
inductive ZipCreateError
  | pathError
  | ioError (e : IOError)
deriving DecidableEq, Repr

/-- Model of `zipResource.Create` (zip resource, Create): resolve the
destination zip path through `fullPath`, fix the in-archive entry
name to `filepath.Base(srcPath)`, and call `CreateZipFile`.  The
source path is used as given — it never passes through `fullPath`. -/
def zipResourceCreate (cwd : String) (c : FileClient) (fs : FS)
    (srcPath name loc : String) : Except ZipCreateError (FS × ZipState) :=
  match fullPath cwd c loc name with
  | .error _ => .error .pathError
  | .ok zipPath =>
    match CreateZipFile fs zipPath srcPath (goBase srcPath) with
    | .error e => .error (.ioError e)
    | .ok fs' => .ok (fs', ⟨zipPath, srcPath, name, loc⟩)

/-! ### Association-list lemmas -/

theorem FS.lookup_eraseP_self (fs : FS) (p : String) :
    (fs.eraseP p).lookup p = none := by
  induction fs with
  | nil => rfl
  | cons hd tl ih =>
    obtain ⟨q, e⟩ := hd
    by_cases h : p = q
    · subst h
      simp [FS.eraseP, ih]
    · simp [FS.eraseP, FS.lookup, h, ih]

theorem FS.lookup_eraseP_ne (fs : FS) (p q : String) (h : q ≠ p) :
    (fs.eraseP p).lookup q = fs.lookup q := by
  induction fs with
  | nil => rfl
  | cons hd tl ih =>
    obtain ⟨r, e⟩ := hd
    by_cases hp : p = r
    · subst hp
      simp [FS.eraseP, FS.lookup, h, ih]
    · by_cases hq : q = r
      · simp [FS.eraseP, FS.lookup, hp, hq]
      · simp [FS.eraseP, FS.lookup, hp, hq, ih]

theorem FS.lookup_insert_self (fs : FS) (p : String) (e : Entry) :
    (fs.insert p e).lookup p = some e := by
  simp [FS.insert, FS.lookup]

theorem FS.lookup_insert_ne (fs : FS) (p q : String) (e : Entry) (h : q ≠ p) :
    (fs.insert p e).lookup q = fs.lookup q := by
  simp [FS.insert, FS.lookup, h, FS.lookup_eraseP_ne fs p q h]

/-! ### `MkdirAll` lemmas -/

/-- A successful `mkdirChain` changes the filesystem only by creating
directories with the requested mode at previously absent paths. -/
theorem mkdirChain_mono (m : Nat) (as : List String) :
    ∀ fs fs1 : FS, mkdirChain m fs as = .ok fs1 → ∀ q,
      fs1.lookup q = fs.lookup q ∨
        (fs.lookup q = none ∧ fs1.lookup q = some (.dir m)) := by
  induction as with
  | nil =>
    intro fs fs1 h q
    simp only [mkdirChain] at h
    cases h
    exact Or.inl rfl
  | cons a as ih =>
    intro fs fs1 h q
    simp only [mkdirChain] at h
    cases ha : fs.lookup a with
    | none =>
      rw [ha] at h
      rcases ih _ _ h q with h1 | h1
      · by_cases hq : q = a
        · subst hq
          right
          refine ⟨ha, ?_⟩
          rw [h1, FS.lookup_insert_self]
        · rw [FS.lookup_insert_ne fs a q _ hq] at h1
          exact Or.inl h1
      · by_cases hq : q = a
        · subst hq
          rw [FS.lookup_insert_self] at h1
          exact absurd h1.1 (by simp)
        · rw [FS.lookup_insert_ne fs a q _ hq] at h1
          exact Or.inr h1
    | some e =>
      rw [ha] at h
      cases e with
      | dir md => exact ih _ _ h q
      | file c md => exact absurd h (by simp)
      | archive es md => exact absurd h (by simp)
      | unreadable => exact absurd h (by simp)

/-- After a successful `mkdirChain`, every path in the chain is a
directory. -/
theorem mkdirChain_mem (m : Nat) (as : List String) :
    ∀ fs fs1 : FS, mkdirChain m fs as = .ok fs1 → ∀ a ∈ as,
      ∃ md, fs1.lookup a = some (.dir md) := by
  induction as with
  | nil => intro fs fs1 _ a ha; exact absurd ha (List.not_mem_nil a)
  | cons b as ih =>
    intro fs fs1 h a ha
    simp only [mkdirChain] at h
    cases hb : fs.lookup b with
    | none =>
      rw [hb] at h
      rcases List.mem_cons.mp ha with rfl | ha'
      · rcases mkdirChain_mono m as _ _ h a with h1 | h1
        · rw [FS.lookup_insert_self] at h1
          exact ⟨m, h1⟩
        · exact ⟨m, h1.2⟩
      · exact ih _ _ h a ha'
    | some e =>
      rw [hb] at h
      cases e with
      | dir md =>
        rcases List.mem_cons.mp ha with rfl | ha'
        · rcases mkdirChain_mono m as _ _ h a with h1 | h1
          · rw [hb] at h1; exact ⟨md, h1⟩
          · exact ⟨m, h1.2⟩
        · exact ih _ _ h a ha'
      | file c md => exact absurd h (by simp)
      | archive es md => exact absurd h (by simp)
      | unreadable => exact absurd h (by simp)

/-! ### Claim theorems -/

/-- C3: for every filesystem, path `p` and text `s`, a successful
`WriteFile fs p s` is followed by `ReadFile` returning exactly `s`
at `p`. -/
theorem write_read_roundtrip_c3 (fs fs' : FS) (p s : String)
    (h : WriteFile fs p s = .ok fs') : ReadFile fs' p = .ok s := by
  unfold WriteFile at h
  cases hmk : MkdirAll fs (goDir p) 0o755 with
  | error e => rw [hmk] at h; exact absurd h (by simp)
  | ok fs1 =>
    simp only [hmk] at h
    cases hl : fs1.lookup p with
    | none =>
      rw [hl] at h
      cases h
      simp [ReadFile, FS.lookup_insert_self]
    | some e =>
      rw [hl] at h
      cases e with
      | file c m =>
        cases h
        simp [ReadFile, FS.lookup_insert_self]
      | dir m => exact absurd h (by simp)
      | archive es m =>
        cases h
        simp [ReadFile, FS.lookup_insert_self]
      | unreadable => exact absurd h (by simp)

theorem write_read_roundtrip_c3_witness :
    ReadFile [("/t.txt", Entry.file "hello" 0o644)] "/t.txt" = .ok "hello" :=
  write_read_roundtrip_c3 [] [("/t.txt", Entry.file "hello" 0o644)]
    "/t.txt" "hello" (by decide)

/-- C5: `Delete` succeeds without error on an absent file (leaving
the filesystem unchanged); any error it returns is a genuine IO
error other than not-found (here: a permission failure); and after
any successful delete the path is absent, a second delete succeeds
and changes nothing, and no other path — in particular no parent
directory — is affected. -/
theorem delete_idempotent_c5 (fs : FS) (p : String) :
    (fs.lookup p = none → Delete fs p = .ok fs) ∧
    (∀ e, Delete fs p = .error e →
      e ≠ .notFound ∧ e = .permissionDenied ∧ fs.lookup p = some .unreadable) ∧
    (∀ fs', Delete fs p = .ok fs' →
      fs'.lookup p = none ∧ Delete fs' p = .ok fs' ∧
        ∀ q, q ≠ p → fs'.lookup q = fs.lookup q) := by
  refine ⟨fun h => by simp [Delete, h], ?_, ?_⟩
  · intro e he
    unfold Delete at he
    cases hl : fs.lookup p with
    | none => rw [hl] at he; exact absurd he (by simp)
    | some en =>
      rw [hl] at he
      cases en with
      | file c m => exact absurd he (by simp)
      | dir m => exact absurd he (by simp)
      | archive es m => exact absurd he (by simp)
      | unreadable =>
        cases he
        exact ⟨by simp, rfl, rfl⟩
  · intro fs' h
    unfold Delete at h
    cases hl : fs.lookup p with
    | none =>
      rw [hl] at h
      cases h
      exact ⟨hl, by simp [Delete, hl], fun q _ => rfl⟩
    | some en =>
      rw [hl] at h
      have herase : ∀ hfs : FS, Except.ok (ε := IOError) (fs.eraseP p) = .ok hfs →
          hfs.lookup p = none ∧ Delete hfs p = .ok hfs ∧
            ∀ q, q ≠ p → hfs.lookup q = fs.lookup q := by
        intro hfs heq
        cases heq
        refine ⟨FS.lookup_eraseP_self fs p, ?_, fun q hq => FS.lookup_eraseP_ne fs p q hq⟩
        simp [Delete, FS.lookup_eraseP_self fs p]
      cases en with
      | file c m => exact herase fs' h
      | dir m => exact herase fs' h
      | archive es m => exact herase fs' h
      | unreadable => exact absurd h (by simp)

theorem delete_idempotent_c5_witness :
    Delete ([] : FS) "/tmp/x/f.txt" = .ok ([] : FS) ∧
    FS.lookup ([] : FS) "/tmp/x/f.txt" = none := by
  have h := (delete_idempotent_c5 [("/tmp/x/f.txt", Entry.file "hi" 0o644)]
    "/tmp/x/f.txt").2.2 [] (by decide)
  exact ⟨h.2.1, h.1⟩

/-- C6: a successful `WriteFile` leaves a file with content `s` at
`p`; a fresh file is created with mode `0o644`, an existing file is
truncated and overwritten (its mode kept, as `os.WriteFile`
documents); every directory of the parent chain exists afterwards,
and every path other than `p` is either untouched or was absent and
is now a directory with mode `0o755`. -/
theorem write_file_spec_c6 (fs fs' : FS) (p s : String)
    (h : WriteFile fs p s = .ok fs') :
    (∃ m, fs'.lookup p = some (.file s m)) ∧
    (fs.lookup p = none → fs'.lookup p = some (.file s 0o644)) ∧
    (∀ c m, fs.lookup p = some (.file c m) → fs'.lookup p = some (.file s m)) ∧
    (∀ a ∈ dirChain (goDir p), ∃ md, fs'.lookup a = some (.dir md)) ∧
    (∀ q, q ≠ p → fs'.lookup q = fs.lookup q ∨
      (fs.lookup q = none ∧ fs'.lookup q = some (.dir 0o755))) := by
  unfold WriteFile at h
  cases hmk : MkdirAll fs (goDir p) 0o755 with
  | error e => rw [hmk] at h; exact absurd h (by simp)
  | ok fs1 =>
    simp only [hmk] at h
    unfold MkdirAll at hmk
    have mono := mkdirChain_mono 0o755 (dirChain (goDir p)) fs fs1 hmk
    have hmem := mkdirChain_mem 0o755 (dirChain (goDir p)) fs fs1 hmk
    have hfinish : ∀ (m : Nat), fs' = fs1.insert p (.file s m) →
        (∀ md, fs1.lookup p ≠ some (.dir md)) →
        (∀ a ∈ dirChain (goDir p), ∃ md, fs'.lookup a = some (.dir md)) ∧
        (∀ q, q ≠ p → fs'.lookup q = fs.lookup q ∨
          (fs.lookup q = none ∧ fs'.lookup q = some (.dir 0o755))) := by
      intro m hfs' hnd
      constructor
      · intro a ha
        obtain ⟨md, hmd⟩ := hmem a ha
        by_cases hap : a = p
        · rw [hap] at hmd
          exact absurd hmd (hnd md)
        · exact ⟨md, by rw [hfs', FS.lookup_insert_ne fs1 p a _ hap, hmd]⟩
      · intro q hq
        rw [hfs', FS.lookup_insert_ne fs1 p q _ hq]
        exact mono q
    cases hl : fs1.lookup p with
    | none =>
      rw [hl] at h
      cases h
      have hfsp : fs.lookup p = none := by
        rcases mono p with h1 | h1
        · rw [hl] at h1; exact h1.symm
        · rw [hl] at h1; exact absurd h1.2 (by simp)
      refine ⟨⟨0o644, FS.lookup_insert_self fs1 p _⟩,
        fun _ => FS.lookup_insert_self fs1 p _, ?_,
        hfinish 0o644 rfl (by simp [hl])⟩
      intro c m hc
      rw [hfsp] at hc
      exact absurd hc (by simp)
    | some e =>
      rw [hl] at h
      cases e with
      | file c0 m0 =>
        cases h
        have hfsp : fs.lookup p = some (.file c0 m0) := by
          rcases mono p with h1 | h1
          · rw [hl] at h1; exact h1.symm
          · rw [hl] at h1; exact absurd h1.2 (by simp)
        refine ⟨⟨m0, FS.lookup_insert_self fs1 p _⟩, ?_, ?_,
          hfinish m0 rfl (by simp [hl])⟩
        · intro hnone
          rw [hfsp] at hnone
          exact absurd hnone (by simp)
        · intro c m hc
          rw [hfsp] at hc
          simp only [Option.some.injEq, Entry.file.injEq] at hc
          obtain ⟨rfl, rfl⟩ := hc
          exact FS.lookup_insert_self fs1 p _
      | dir m0 => exact absurd h (by simp)
      | archive es0 m0 =>
        cases h
        have hfsp : fs.lookup p = some (.archive es0 m0) := by
          rcases mono p with h1 | h1
          · rw [hl] at h1; exact h1.symm
          · rw [hl] at h1; exact absurd h1.2 (by simp)
        refine ⟨⟨m0, FS.lookup_insert_self fs1 p _⟩, ?_, ?_,
          hfinish m0 rfl (by simp [hl])⟩
        · intro hnone
          rw [hfsp] at hnone
          exact absurd hnone (by simp)
        · intro c m hc
          rw [hfsp] at hc
          simp at hc
      | unreadable => exact absurd h (by simp)

theorem write_file_spec_c6_witness :
    FS.lookup [("/tmp/x/a/t.txt", Entry.file "hello" 0o644),
      ("/tmp/x/a", Entry.dir 0o755), ("/tmp/x", Entry.dir 0o755),
      ("/tmp", Entry.dir 0o755)] "/tmp/x/a/t.txt" =
      some (Entry.file "hello" 0o644) :=
  (write_file_spec_c6 []
    [("/tmp/x/a/t.txt", Entry.file "hello" 0o644),
      ("/tmp/x/a", Entry.dir 0o755), ("/tmp/x", Entry.dir 0o755),
      ("/tmp", Entry.dir 0o755)]
    "/tmp/x/a/t.txt" "hello" (by decide)).2.1 (by decide)

/-- On success, `CreateZipFile` leaves at the zip path an archive
holding exactly the single entry `(nameInZip, source bytes)`. -/
theorem createZipFile_ok_lookup (fs fs' : FS) (z src n c : String) (m : Nat)
    (hsrc : fs.lookup src = some (.file c m)) (hne : src ≠ z)
    (h : CreateZipFile fs z src n = .ok fs') :
    fs'.lookup z = some (.archive [(n, c)] 0o666) := by
  unfold CreateZipFile at h
  cases hmk : MkdirAll fs (goDir z) 0o755 with
  | error e => rw [hmk] at h; exact absurd h (by simp)
  | ok fs1 =>
    simp only [hmk] at h
    unfold MkdirAll at hmk
    have hsrc1 : fs1.lookup src = some (.file c m) := by
      rcases mkdirChain_mono 0o755 (dirChain (goDir z)) fs fs1 hmk src with h1 | h1
      · rw [h1, hsrc]
      · rw [hsrc] at h1; exact absurd h1.1 (by simp)
    have hsrc2 : (fs1.insert z (.file "" 0o666)).lookup src = some (.file c m) := by
      rw [FS.lookup_insert_ne fs1 z src _ hne, hsrc1]
    cases hlz : fs1.lookup z with
    | none =>
      rw [hlz] at h
      simp only [hsrc2] at h
      cases h
      exact FS.lookup_insert_self _ z _
    | some e =>
      rw [hlz] at h
      cases e with
      | file c0 m0 =>
        simp only [hsrc2] at h
        cases h
        exact FS.lookup_insert_self _ z _
      | dir m0 => exact absurd h (by simp)
      | archive es0 m0 =>
        simp only [hsrc2] at h
        cases h
        exact FS.lookup_insert_self _ z _
      | unreadable => exact absurd h (by simp)

/-- C4, amended: for every filesystem, archive path, readable source
path *distinct from the archive path*, and entry name, a successful
`CreateZipFile` produces at the archive path an archive containing
exactly one entry, named `n` as requested, whose bytes are the source
file's bytes at creation time.  The proviso is forced: when the source
path equals the archive path, `os.Create` truncates the file before
the source is opened, so the entry's bytes are empty rather than the
creation-time bytes (see the counterexample theorem). -/
theorem create_zip_single_entry_c4 (fs fs' : FS) (z src n c : String) (m : Nat)
    (hsrc : fs.lookup src = some (.file c m)) (hne : src ≠ z)
    (h : CreateZipFile fs z src n = .ok fs') :
    ∃ mo, fs'.lookup z = some (.archive [(n, c)] mo) :=
  ⟨0o666, createZipFile_ok_lookup fs fs' z src n c m hsrc hne h⟩

theorem create_zip_single_entry_c4_witness :
    ∃ mo, FS.lookup
      [("/tmp/x/out/archive.zip", Entry.archive [("inside.txt", "content")] 0o666),
        ("/tmp/x/out", Entry.dir 0o755), ("/tmp/x", Entry.dir 0o755),
        ("/tmp", Entry.dir 0o755),
        ("/tmp/x/source.txt", Entry.file "content" 0o644)]
      "/tmp/x/out/archive.zip" = some (Entry.archive [("inside.txt", "content")] mo) :=
  create_zip_single_entry_c4
    [("/tmp/x/source.txt", Entry.file "content" 0o644)]
    [("/tmp/x/out/archive.zip", Entry.archive [("inside.txt", "content")] 0o666),
      ("/tmp/x/out", Entry.dir 0o755), ("/tmp/x", Entry.dir 0o755),
      ("/tmp", Entry.dir 0o755),
      ("/tmp/x/source.txt", Entry.file "content" 0o644)]
    "/tmp/x/out/archive.zip" "/tmp/x/source.txt" "inside.txt" "content" 0o644
    (by decide) (by decide) (by decide)

/-- C4: counterexample to the claim as stated.  With the source path
equal to the archive path — a readable source file holding
`"content"` at creation time — `CreateZipFile` succeeds, yet the
single entry of the resulting archive holds `""`, not the source's
creation-time bytes: the destination is created (truncated) before
the source is opened. -/
theorem create_zip_aliased_c4_counterexample :
    FS.lookup [("/a.zip", Entry.file "content" 0o644)] "/a.zip" =
      some (Entry.file "content" 0o644) ∧
    CreateZipFile [("/a.zip", Entry.file "content" 0o644)]
      "/a.zip" "/a.zip" "a.zip" =
      .ok [("/a.zip", Entry.archive [("a.zip", "")] 0o666)] ∧
    "" ≠ "content" := by decide

/-- C8: `zipResource.Create` applies no base-directory containment
check to the source path: only the destination goes through
`fullPath`, and whenever the destination resolves and the archive
write succeeds, the create succeeds — with the source path
universally quantified, unconstrained by the client's base
directory.  The witness instantiates it with a source entirely
outside the base directory. -/
theorem zip_src_unconfined_c8 (cwd : String) (c : FileClient) (fs fs' : FS)
    (srcPath name loc zipPath : String)
    (h1 : fullPath cwd c loc name = .ok zipPath)
    (h2 : CreateZipFile fs zipPath srcPath (goBase srcPath) = .ok fs') :
    zipResourceCreate cwd c fs srcPath name loc =
      .ok (fs', ⟨zipPath, srcPath, name, loc⟩) := by
  unfold zipResourceCreate
  rw [h1]
  simp only [h2]

theorem zip_src_unconfined_c8_witness :
    zipResourceCreate "/" ⟨"/tmp/x"⟩
      [("/outside/secret.txt", Entry.file "s3cret" 0o644), ("/tmp/x", Entry.dir 0o755)]
      "/outside/secret.txt" "a.zip" "" =
      .ok ([("/tmp/x/a.zip", Entry.archive [("secret.txt", "s3cret")] 0o666),
        ("/tmp", Entry.dir 0o755),
        ("/outside/secret.txt", Entry.file "s3cret" 0o644),
        ("/tmp/x", Entry.dir 0o755)],
        ⟨"/tmp/x/a.zip", "/outside/secret.txt", "a.zip", ""⟩) :=
  zip_src_unconfined_c8 "/" ⟨"/tmp/x"⟩
    [("/outside/secret.txt", Entry.file "s3cret" 0o644), ("/tmp/x", Entry.dir 0o755)]
    [("/tmp/x/a.zip", Entry.archive [("secret.txt", "s3cret")] 0o666),
      ("/tmp", Entry.dir 0o755),
      ("/outside/secret.txt", Entry.file "s3cret" 0o644),
      ("/tmp/x", Entry.dir 0o755)]
    "/outside/secret.txt" "a.zip" "" "/tmp/x/a.zip" (by decide) (by decide)

/-- On any successful `CreateZipFile` — the aliased `src = z` case
included — the archive left at the zip path holds exactly one entry
named `n`. -/
theorem createZipFile_ok_entry (fs fs' : FS) (z src n : String)
    (h : CreateZipFile fs z src n = .ok fs') :
    ∃ b, fs'.lookup z = some (.archive [(n, b)] 0o666) := by
  unfold CreateZipFile at h
  split at h
  · exact absurd h (by simp)
  · split at h
    · exact absurd h (by simp)
    · exact absurd h (by simp)
    · simp only [] at h
      split at h
      · exact absurd h (by simp)
      · exact absurd h (by simp)
      · exact absurd h (by simp)
      · exact absurd h (by simp)
      · cases h
        exact ⟨_, FS.lookup_insert_self _ z _⟩

/-- C10: on every successful `zipResource.Create` — for every plan,
an aliased `src_data_file` equal to the resolved zip path included —
the single entry of the created archive is named `goBase srcPath`,
the base name of the configured `src_data_file`, and the create
interface offers no independent entry-name input. -/
theorem zip_entry_name_is_base_c10 (cwd : String) (c : FileClient)
    (fs fs' : FS) (srcPath name loc : String) (st : ZipState)
    (h : zipResourceCreate cwd c fs srcPath name loc = .ok (fs', st)) :
    st.srcFileID = srcPath ∧
    ∃ b, fs'.lookup st.id = some (.archive [(goBase srcPath, b)] 0o666) := by
  unfold zipResourceCreate at h
  cases hfp : fullPath cwd c loc name with
  | error e => rw [hfp] at h; exact absurd h (by simp)
  | ok zp =>
    simp only [hfp] at h
    cases hcz : CreateZipFile fs zp srcPath (goBase srcPath) with
    | error e => rw [hcz] at h; exact absurd h (by simp)
    | ok fs2 =>
      rw [hcz] at h
      have hpair : fs2 = fs' ∧ (⟨zp, srcPath, name, loc⟩ : ZipState) = st := by
        have hinj := Except.ok.inj h
        exact ⟨congrArg Prod.fst hinj, congrArg Prod.snd hinj⟩
      obtain ⟨rfl, rfl⟩ := hpair
      exact ⟨rfl, createZipFile_ok_entry fs fs2 zp srcPath (goBase srcPath) hcz⟩

theorem zip_entry_name_is_base_c10_witness :
    (ZipState.mk "/tmp/x/a.zip" "/tmp/x/a.zip" "a.zip" "").srcFileID =
      "/tmp/x/a.zip" ∧
    ∃ b, FS.lookup [("/tmp/x/a.zip", Entry.archive [("a.zip", "")] 0o666),
      ("/tmp", Entry.dir 0o755), ("/tmp/x", Entry.dir 0o755)]
      (ZipState.mk "/tmp/x/a.zip" "/tmp/x/a.zip" "a.zip" "").id =
      some (Entry.archive [(goBase "/tmp/x/a.zip", b)] 0o666) :=
  zip_entry_name_is_base_c10 "/" ⟨"/tmp/x"⟩
    [("/tmp/x", Entry.dir 0o755), ("/tmp/x/a.zip", Entry.file "old" 0o644)]
    [("/tmp/x/a.zip", Entry.archive [("a.zip", "")] 0o666),
      ("/tmp", Entry.dir 0o755), ("/tmp/x", Entry.dir 0o755)]
    "/tmp/x/a.zip" "a.zip" "" ⟨"/tmp/x/a.zip", "/tmp/x/a.zip", "a.zip", ""⟩
    (by decide)

/-- Modelled from the spec's containment contract, for comparison
with the code: "Succeed only if the canonical full path is exactly
the canonical base directory or has it as a strict path-prefix
followed by a path separator." -/
def specContained (base p : String) : Bool :=
  p == base || List.isPrefixOf (base ++ "/").data p.data

/-- C1: the claim requires `fullPath` to succeed only when the
canonical result is the canonical base directory or lies strictly
below it past a separator.  The code checks only a bare string
prefix: with base directory `/tmp/x`, the input `location = ".."`,
`name = "xevil"` canonicalizes to the sibling `/tmp/xevil`, which
`fullPath` accepts although it is outside the base directory,
contradicting the claim (and the function's own documentation).  The
third conjunct records that an in-base path is spec-contained, so the
spec predicate is not vacuous. -/
theorem full_path_prefix_escape_c1 :
    fullPath "/" ⟨"/tmp/x"⟩ ".." "xevil" = .ok "/tmp/xevil" ∧
    specContained "/tmp/x" "/tmp/xevil" = false ∧
    specContained "/tmp/x" "/tmp/x/inside.txt" = true ∧
    specContained "/tmp/x" "/tmp/x" = true := by decide

/-- C2: the not-found parts of the claim hold — a missing file during
a resource refresh removes the tracked state, and a missing file
during a data-source read is a hard error — but the IO-failure part
fails on the code: `txtResource.Read` removes the resource from state
on a permission-denied error too, instead of surfacing it, because it
removes state on every `ReadFile` error without inspecting it. -/
theorem txt_read_error_translation_c2 :
    ReadFile [("/tmp/x/f.txt", Entry.unreadable)] "/tmp/x/f.txt" =
      .error .permissionDenied ∧
    txtResourceRead [("/tmp/x/f.txt", Entry.unreadable)]
      ⟨"/tmp/x/f.txt", "f.txt", "", none⟩ = .removed ∧
    txtResourceRead ([] : FS) ⟨"/tmp/x/f.txt", "f.txt", "", none⟩ = .removed ∧
    txtDataSourceRead "/" ⟨"/tmp/x"⟩ ([] : FS) "f.txt" none =
      .error (.ioError .notFound) := by decide

/-- C7: `resolvePath` has no side effects: run as a state transformer
it returns the filesystem unchanged for every input, whether it
succeeds or fails — in particular, the spec's concrete scenario
`resolvePath("..", "evil.txt")` on base `/tmp/x` yields the
path-escape error and creates no file. -/
theorem resolve_path_no_side_effects_c7 :
    (∀ (cwd : String) (c : FileClient) (loc name : String) (fs : FS),
      (resolvePathFS cwd c loc name fs).2 = fs) ∧
    (∀ fs : FS,
      (resolvePathFS "/" ⟨"/tmp/x"⟩ ".." "evil.txt" fs).1 =
        .error "path escapes base directory" ∧
      (resolvePathFS "/" ⟨"/tmp/x"⟩ ".." "evil.txt" fs).2 = fs) := by
  refine ⟨fun _ _ _ _ _ => rfl, fun fs => ⟨?_, rfl⟩⟩
  show fullPath "/" ⟨"/tmp/x"⟩ ".." "evil.txt" = .error "path escapes base directory"
  decide

/-- C9: `fullPath` is a pure function of the working directory and
its three string inputs: its result never depends on the filesystem
state, so its containment check is purely lexical and cannot resolve
symbolic links (the code comment claiming `filepath.Abs` resolves
them notwithstanding). -/
theorem full_path_pure_c9 :
    ∀ (cwd : String) (c : FileClient) (loc name : String) (fs1 fs2 : FS),
      (resolvePathFS cwd c loc name fs1).1 = (resolvePathFS cwd c loc name fs2).1 ∧
      (resolvePathFS cwd c loc name fs1).1 = fullPath cwd c loc name :=
  fun _ _ _ _ _ _ => ⟨rfl, rfl⟩

end LocalfileProvider
